import Mathlib

/-!
# ObjectList (tools/cathedral/src/ObjectList.cpp)

A shallow embedding of the list widget's controller logic: the backing
object model, the filter proxy, the view's selection, the weakly held
active object, and the call-outs each operation makes, recorded as a trace.

Conventions.
* `Obj` is the identity (address) of a `libcomp::Object`; a
  `std::shared_ptr<libcomp::Object>` is a `Ptr = Option Obj`, `none` being
  `nullptr`.
* Every operation returns the successor state together with the list of
  call-outs and signals it produced, in program order.
* The scroll position of the view is widget geometry and is not part of the
  state.
-/

namespace ObjectList

/-- Identity of a `libcomp::Object`. -/
abbrev Obj := Nat

/-- A `std::shared_ptr<libcomp::Object>`; `none` is the null pointer. -/
abbrev Ptr := Option Obj

/-- The surroundings of the widget: the overridable hooks a concrete list
type supplies, the text the object model renders for an object, and the
objects that owners outside the widget keep alive. -/
structure Env where
  /-- Hook `ObjectList::GetObjectID`; the base class returns an empty string. -/
  GetObjectID : Ptr → String
  /-- Hook `ObjectList::GetObjectName`; the base class returns an empty string. -/
  GetObjectName : Ptr → String
  /-- Modelled from the spec: `ObjectListModel::data`, the rendered display
  text of a row's object (ObjectListModel.cpp is not part of the sources;
  how the text is composed from the hooks is left open). -/
  rowText : Ptr → String
  /-- Objects that some `shared_ptr` outside this widget still owns. -/
  heldElsewhere : Obj → Bool

/-- The hooks as the base class `ObjectList` defines them: both return `{}`. -/
def baseEnv (rowText : Ptr → String) (held : Obj → Bool) : Env :=
  { GetObjectID := fun _ => "", GetObjectName := fun _ => "",
    rowText := rowText, heldElsewhere := held }

/-- Call-outs and signals an operation makes, in the order it makes them. -/
inductive Event where
  | LoadProperties (obj : Ptr)
  | SaveProperties (obj : Ptr)
  | CloseSelectors
  | selectedObjectChanged
  | objectMoved (obj : Ptr) (up : Bool)
  deriving DecidableEq, Repr

/-- Modelled from the spec: `ObjectListModel`, the ordered backing sequence of
object references (its implementation file is not part of the sources). -/
structure ObjectListModel where
  mObjects : List Ptr
  deriving DecidableEq, Repr

namespace ObjectListModel

/-- Modelled from the spec: `ObjectListModel::rowCount`, the number of rows of
the full list. -/
def rowCount (m : ObjectListModel) : Int := (m.mObjects.length : Int)

/-- Linear search behind `GetIndex`: position of the first entry identical to
`obj`, counting from `i`, or `-1`. -/
def indexFrom (obj : Ptr) : List Ptr → Nat → Int
  | [], _ => -1
  | p :: ps, i => if p = obj then (i : Int) else indexFrom obj ps (i + 1)

/-- Modelled from the spec: `ObjectListModel::GetIndex`, "returns the underlying
row index of a given object by identity, or -1 if absent". -/
def GetIndex (m : ObjectListModel) (obj : Ptr) : Int := indexFrom obj m.mObjects 0

/-- Modelled from the spec: `ObjectListModel::GetObject`, "returns the
DomainObjectRef at a given underlying row or fails (returns null/none) if out
of range". The argument is a model index: `none` is the invalid index. -/
def GetObject (m : ObjectListModel) (index : Option Nat) : Ptr :=
  match index with
  | none => none
  | some row => (m.mObjects.get? row).join

/-- Modelled from the spec: `ObjectListModel::data(idx).toString()`, the
rendered text of an underlying row. -/
def data (env : Env) (m : ObjectListModel) (row : Nat) : String :=
  env.rowText (m.GetObject (some row))

/-- Modelled from the spec: `ObjectListModel::SetObjectList`, "replaces the
entire backing sequence". -/
def SetObjectList (_m : ObjectListModel) (objs : List Ptr) : ObjectListModel :=
  { mObjects := objs }

end ObjectListModel

/-- State of the widget. -/
structure State where
  /-- The backing model `mObjectModel`. -/
  mObjectModel : ObjectListModel
  /-- The fixed string held by `mFilterModel` (set by `Search`). -/
  filterTerm : String
  /-- What `ui->objectList->selectionModel()->selectedIndexes()` returns: rows
  of the view's model, which is the filter proxy. -/
  selection : List Nat
  /-- The weak pointer `mActiveObject`: the object it was assigned from. -/
  mActiveObject : Option Obj
  /-- Whether `mMainWindow` is non-null. -/
  mMainWindow : Bool
  mReadOnly : Bool
  moveUpDisabled : Bool
  moveDownDisabled : Bool
  moveUpHidden : Bool
  moveDownHidden : Bool
  deriving DecidableEq, Repr

/-! ## Library behaviour the widget relies on -/

/-- `QString::contains` with a case-insensitive fixed string: `term` occurs in
`text` as a literal substring, letter case ignored (folded by `Char.toLower`,
which covers the ASCII letters). -/
def containsCI (term text : String) : Bool :=
  let t := term.toList.map Char.toLower
  (text.toList.map Char.toLower).tails.any (fun suffix => t.isPrefixOf suffix)

/-- `QSortFilterProxyModel::filterAcceptsRow` for key column 0: the row's
display text contains the filter string. -/
def filterAcceptsRow (env : Env) (s : State) (row : Nat) : Bool :=
  containsCI s.filterTerm (s.mObjectModel.data env row)

/-- Rows of the filter proxy, in order: the underlying row behind each visible
row (no sorting is enabled, so source order is kept). -/
def visibleRows (env : Env) (s : State) : List Nat :=
  (List.range s.mObjectModel.mObjects.length).filter (filterAcceptsRow env s)

/-- `mFilterModel->mapToSource`: the underlying row of a visible row, the
invalid index when the visible row does not exist. -/
def mapToSource (env : Env) (s : State) (viewRow : Nat) : Option Nat :=
  (visibleRows env s).get? viewRow

/-- `QItemSelectionModel::select(index, ClearAndSelect | Rows)` on the view.
With `Rows` the selection is rebuilt from the row number of `index` in the
view's own model (the filter proxy); a row the view does not have yields an
empty selection. -/
def selectRow (env : Env) (s : State) (row : Nat) : List Nat :=
  if row < (visibleRows env s).length then [row] else []

/-- Whether two selections differ as sets of rows, which is when the selection
model emits `selectionChanged`. -/
def selectionDiffers (old new : List Nat) : Bool :=
  !(old.all (fun r => new.contains r) && new.all (fun r => old.contains r))

/-- `std::weak_ptr::lock`: the object while some `shared_ptr` owns it (the
backing list or an outside owner), null otherwise. -/
def lock (env : Env) (s : State) : Ptr :=
  match s.mActiveObject with
  | none => none
  | some o =>
    if s.mObjectModel.mObjects.contains (some o) || env.heldElsewhere o then some o
    else none

/-- `QChar::isSpace`: the characters `QString::toUInt` skips around a number.
These are U+0009 to U+000D (tab, line feed, vertical tab, form feed, carriage
return), the space, U+0085, the no-break space, and the characters of the
Unicode separator categories Zs, Zl and Zp. -/
def isSpace (c : Char) : Bool :=
  c.toNat == 0x20 || (decide (0x09 ≤ c.toNat) && decide (c.toNat ≤ 0x0d)) ||
    c.toNat == 0x85 || c.toNat == 0xa0 || c.toNat == 0x1680 ||
    (decide (0x2000 ≤ c.toNat) && decide (c.toNat ≤ 0x200a)) ||
    c.toNat == 0x2028 || c.toNat == 0x2029 || c.toNat == 0x202f ||
    c.toNat == 0x205f || c.toNat == 0x3000

/-- The digits the conversion accepts in base 10: the ASCII characters 0 to 9. -/
def isDecimalDigit (c : Char) : Bool :=
  decide (48 ≤ c.toNat) && decide (c.toNat ≤ 57)

/-- Decimal digits of a `QString::toUInt` argument, most significant first. -/
def parseDigits : List Char → Nat → Option Nat
  | [], acc => some acc
  | c :: cs, acc =>
    if isDecimalDigit c then parseDigits cs (acc * 10 + (c.toNat - 48)) else none

/-- Surrounding white space removed, as `QString::toUInt` does before parsing. -/
def trimChars (cs : List Char) : List Char :=
  ((cs.dropWhile isSpace).reverse.dropWhile isSpace).reverse

/-- The conversion behind `QString::toUInt` (base 10): white space around the
text is skipped, then an optional `+` and one or more decimal digits must make
up all of it, the value fitting 32 bits; `none` when the conversion fails. -/
def parseUInt (str : String) : Option Nat :=
  let cs := trimChars str.toList
  let ds := match cs with
    | '+' :: rest => rest
    | _ => cs
  if ds.isEmpty then none
  else match parseDigits ds 0 with
    | some n => if n < 2 ^ 32 then some n else none
    | none => none

/-- `QString::toUInt()`: "Returns 0 if the conversion fails." -/
def toUInt (str : String) : Nat := (parseUInt str).getD 0

/-- `std::map<uint32_t, QString>::operator[]` followed by assignment, on a map
kept as a list of entries in increasing key order. -/
def mapAssign (k : Nat) (v : String) : List (Nat × String) → List (Nat × String)
  | [] => [(k, v)]
  | (k', v') :: rest =>
    if k < k' then (k, v) :: (k', v') :: rest
    else if k = k' then (k, v) :: rest
    else (k', v') :: mapAssign k v rest

/-- `std::map::find`: the value stored under a key. -/
def mapFind (k : Nat) : List (Nat × String) → Option String
  | [] => none
  | (k', v') :: rest => if k = k' then some v' else mapFind k rest

/-! ## Operations of `ObjectList` -/

/-- `ObjectList::SetMainWindow`. -/
def SetMainWindow (s : State) (mainWindow : Bool) : State :=
  { s with mMainWindow := mainWindow }

/-- `ObjectList::Search`: installs the term as the proxy's fixed string. -/
def Search (s : State) (term : String) : State :=
  { s with filterTerm := term }

/-- `ObjectList::SetReadOnly`. -/
def SetReadOnly (s : State) (readOnly : Bool) : State :=
  { s with mReadOnly := readOnly }

/-- `ObjectList::ToggleMoveControls`. -/
def ToggleMoveControls (s : State) (visible : Bool) : State :=
  { s with moveUpHidden := !visible, moveDownHidden := !visible }

/-- `ObjectList::GetActiveObject`. -/
def GetActiveObject (env : Env) (s : State) : Ptr := lock env s

/-- `ObjectList::SetObjectList`. Resetting the backing model resets the view,
which drops its selection without signalling. -/
def SetObjectList (s : State) (objs : List Ptr) : State × List Event :=
  let s1 := { s with mObjectModel := s.mObjectModel.SetObjectList objs, selection := [] }
  -- Always reset to no selection
  let s2 := { s1 with mActiveObject := none }
  (s2, [Event.LoadProperties none])

/-- `ObjectList::SaveActiveProperties`. -/
def SaveActiveProperties (env : Env) (s : State) : State × List Event :=
  if !s.mReadOnly then
    match lock env s with
    | some obj => (s, [Event.SaveProperties (some obj)])
    | none => (s, [])
  else (s, [])

/-- `ObjectList::SelectedObjectChanged`, the slot run on every change of the
view's selection. -/
def SelectedObjectChanged (env : Env) (s : State) : State × List Event :=
  let obj := lock env s
  let t1 : List Event :=
    match obj with
    | some o =>
      (if s.mMainWindow then [Event.CloseSelectors] else []) ++
      (if !s.mReadOnly then [Event.SaveProperties (some o)] else [])
    | none => []
  let idxList := s.selection
  let s1 : State :=
    match idxList with
    | [] => { s with mActiveObject := none, moveUpDisabled := true, moveDownDisabled := true }
    | first :: _ =>
      { s with mActiveObject := s.mObjectModel.GetObject (mapToSource env s first),
               moveUpDisabled := false, moveDownDisabled := false }
  (s1, t1 ++ [Event.LoadProperties (lock env s1)] ++ [Event.selectedObjectChanged])

/-- `ObjectList::Select`. The selection model's `selectionChanged` signal is
connected to `SelectedObjectChanged`, which therefore runs inside `select`
whenever the selection really changes. -/
def Select (env : Env) (s : State) (obj : Ptr) : Bool × State × List Event :=
  let idx := s.mObjectModel.GetIndex obj
  if idx ≠ -1 then
    let qIdx := idx.toNat
    let newSel := selectRow env s qIdx
    let s1 := { s with selection := newSel }
    if selectionDiffers s.selection newSel then
      let r := SelectedObjectChanged env s1
      (true, r.1, r.2)
    else (true, s1, [])
  else (false, s, [])

/-- `ObjectList::MoveUp`. -/
def MoveUp (env : Env) (s : State) : State × List Event :=
  match s.selection with
  | [] => (s, [])
  | first :: _ =>
    if first ≠ 0 then
      (s, [Event.objectMoved (s.mObjectModel.GetObject (mapToSource env s first)) true])
    else (s, [])

/-- `ObjectList::MoveDown`. -/
def MoveDown (env : Env) (s : State) : State × List Event :=
  match s.selection with
  | [] => (s, [])
  | first :: _ =>
    if (first : Int) ≠ s.mObjectModel.rowCount - 1 then
      (s, [Event.objectMoved (s.mObjectModel.GetObject (mapToSource env s first)) false])
    else (s, [])

/-- Loop of `ObjectList::GetObjectMapping` over rows `i, i+1, ...`, `fuel`
iterations left. -/
def mappingLoop (env : Env) (m : ObjectListModel) :
    Nat → Nat → List (Nat × String) → List (Nat × String)
  | 0, _, mapping => mapping
  | fuel + 1, i, mapping =>
    let obj := m.GetObject (some i)
    mappingLoop env m fuel (i + 1) (mapAssign (toUInt (env.GetObjectID obj)) (m.data env i) mapping)

/-- `ObjectList::GetObjectMapping`. -/
def GetObjectMapping (env : Env) (s : State) : List (Nat × String) :=
  let count := s.mObjectModel.rowCount
  mappingLoop env s.mObjectModel count.toNat 0 []

/-! ## Vocabulary of the properties -/

/-- Some occurrence of `a` in the trace precedes some occurrence of `b`. -/
def occursBefore (a b : Event) : List Event → Bool
  | [] => false
  | e :: t => (decide (e = a) && t.contains b) || occursBefore a b t

/-- Whether the event is a `SaveProperties` call-out. -/
def isSave : Event → Bool
  | Event.SaveProperties _ => true
  | _ => false

/-- Value of a run of decimal digits in positional notation, the most
significant digit first. -/
def decimalValue : List Char → Nat
  | [] => 0
  | c :: cs => (c.toNat - 48) * 10 ^ cs.length + decimalValue cs

/-- The text is a valid unsigned integer of value `n`: it reads, in this
order, white space (possibly none), an optional plus sign, one or more decimal
digits, white space (possibly none); `n` is the value of the digits and fits
an unsigned 32-bit integer. -/
def IsUIntText (str : String) (n : Nat) : Prop :=
  ∃ pre sign ds post : List Char,
    str.toList = pre ++ sign ++ ds ++ post ∧
      (∀ c ∈ pre, isSpace c = true) ∧ (∀ c ∈ post, isSpace c = true) ∧
      (sign = [] ∨ sign = ['+']) ∧ ds ≠ [] ∧ (∀ c ∈ ds, isDecimalDigit c = true) ∧
      decimalValue ds = n ∧ n < 2 ^ 32

/-- Keys of a map, in iteration order. -/
def mapKeys (m : List (Nat × String)) : List Nat := m.map Prod.fst

/-- Key under which `GetObjectMapping` files an underlying row: the
identifier of the row's object, parsed by `toUInt`. -/
def rowKey (env : Env) (s : State) (row : Nat) : Nat :=
  toUInt (env.GetObjectID (s.mObjectModel.GetObject (some row)))

/-- Entry that one iteration of `GetObjectMapping` writes for a row. -/
def rowEntry (env : Env) (m : ObjectListModel) (row : Nat) : Nat × String :=
  (toUInt (env.GetObjectID (m.GetObject (some row))), m.data env row)

/-- Writing a sequence of entries into a map, first to last. -/
def assignAll (entries : List (Nat × String)) (mapping : List (Nat × String)) :
    List (Nat × String) :=
  entries.foldl (fun acc e => mapAssign e.1 e.2 acc) mapping

/-! ## Example data -/

/-- Display text of the example objects: 1 is "Alpha", 2 is "beta", 3 is
"Bravo". -/
def exText : Ptr → String
  | some 1 => "Alpha"
  | some 2 => "beta"
  | some 3 => "Bravo"
  | _ => ""

/-- Identifier hook of the example list type: the decimal object number. -/
def exID : Ptr → String
  | some 1 => "1"
  | some 2 => "2"
  | some 3 => "3"
  | _ => ""

/-- A concrete list type: identifiers "1", "2", "3", names as displayed, and no
owner of the objects besides the list. -/
def exEnv : Env :=
  { GetObjectID := exID, GetObjectName := exText, rowText := exText,
    heldElsewhere := fun _ => false }

/-- Identifier hook of a list type whose identifiers collide: objects 1 and 2
both carry the number 7 (the second written with a plus sign and blanks), and
object 3 carries no number. -/
def exDupID : Ptr → String
  | some 1 => "7"
  | some 2 => "\x0b+7 "
  | some 3 => "x"
  | _ => ""

/-- A concrete list type with the colliding identifiers of `exDupID`. -/
def exDupEnv : Env :=
  { GetObjectID := exDupID, GetObjectName := exText, rowText := exText,
    heldElsewhere := fun _ => false }

/-- The base class itself, whose identifier hook returns the empty string. -/
def exBaseEnv : Env := baseEnv exText (fun _ => false)

/-- A widget showing `objs`, with the given filter, selection and active
object; a main window is set and the list is editable. -/
def exState (objs : List Ptr) (term : String) (sel : List Nat) (active : Option Obj) : State :=
  { mObjectModel := { mObjects := objs }, filterTerm := term, selection := sel,
    mActiveObject := active, mMainWindow := true, mReadOnly := false,
    moveUpDisabled := false, moveDownDisabled := false,
    moveUpHidden := false, moveDownHidden := false }

/-! ## Auxiliary facts -/

theorem GetObject_mem (m : ObjectListModel) (index : Option Nat) (o : Obj)
    (h : m.GetObject index = some o) : some o ∈ m.mObjects := by
  cases index with
  | none => simp [ObjectListModel.GetObject] at h
  | some row =>
    simp only [ObjectListModel.GetObject] at h
    cases hg : m.mObjects.get? row with
    | none => rw [hg] at h; simp at h
    | some p =>
      rw [hg] at h
      simp at h
      subst h
      exact List.get?_mem hg

theorem lock_after_change (env : Env) (s : State) :
    lock env (SelectedObjectChanged env s).1 =
      (match s.selection with
       | [] => none
       | first :: _ => s.mObjectModel.GetObject (mapToSource env s first)) := by
  unfold SelectedObjectChanged
  cases hs : s.selection with
  | nil => simp [lock]
  | cons first rest =>
    simp only []
    cases h : s.mObjectModel.GetObject (mapToSource env s first) with
    | none => simp [lock]
    | some o =>
      have hm := GetObject_mem _ _ _ h
      simp [lock, hm]

theorem trace_of_change (env : Env) (s : State) :
    (SelectedObjectChanged env s).2 =
      (match lock env s with
       | some o =>
         (if s.mMainWindow then [Event.CloseSelectors] else []) ++
         (if !s.mReadOnly then [Event.SaveProperties (some o)] else [])
       | none => []) ++
      [Event.LoadProperties (lock env (SelectedObjectChanged env s).1),
       Event.selectedObjectChanged] := by
  unfold SelectedObjectChanged
  simp

theorem indexFrom_eq_neg_one_iff (obj : Ptr) (l : List Ptr) (i : Nat) :
    ObjectListModel.indexFrom obj l i = -1 ↔ obj ∉ l := by
  induction l generalizing i with
  | nil => simp [ObjectListModel.indexFrom]
  | cons p ps ih =>
    simp only [ObjectListModel.indexFrom]
    by_cases hp : p = obj
    · subst hp
      simp
    · rw [if_neg hp, ih (i + 1)]
      simp [List.mem_cons, Ne.symm hp]

/-! ## Selection change: sequencing of the call-outs -/

/-- C1. With a prior active object `A` that still resolves and `ReadOnly`
false, one `SelectedObjectChanged` transition to the active object `B` makes
exactly the call-outs (CloseSelectors when a main window is set,)
SaveProperties(A), LoadProperties(B), "selection changed": SaveProperties(A)
comes before LoadProperties(B), and the notification occurs once, after
LoadProperties(B). -/
theorem SelectedObjectChanged_save_before_load (env : Env) (s : State) (A : Obj) (B : Ptr)
    (hA : GetActiveObject env s = some A) (hRO : s.mReadOnly = false)
    (hB : GetActiveObject env (SelectedObjectChanged env s).1 = B) :
    (SelectedObjectChanged env s).2 =
        (if s.mMainWindow then [Event.CloseSelectors] else []) ++
          [Event.SaveProperties (some A), Event.LoadProperties B,
           Event.selectedObjectChanged] ∧
      occursBefore (Event.SaveProperties (some A)) (Event.LoadProperties B)
        (SelectedObjectChanged env s).2 = true ∧
      occursBefore (Event.LoadProperties B) Event.selectedObjectChanged
        (SelectedObjectChanged env s).2 = true ∧
      occursBefore Event.selectedObjectChanged (Event.LoadProperties B)
        (SelectedObjectChanged env s).2 = false ∧
      (SelectedObjectChanged env s).2.count Event.selectedObjectChanged = 1 := by
  have ht := trace_of_change env s
  unfold GetActiveObject at hA hB
  rw [hA, hB, hRO] at ht
  rw [ht]
  cases s.mMainWindow <;> simp [occursBefore]

theorem SelectedObjectChanged_save_before_load_witness :
    GetActiveObject exEnv (exState [some 1, some 2] "" [1] (some 1)) = some 1 ∧
      (SelectedObjectChanged exEnv (exState [some 1, some 2] "" [1] (some 1))).2 =
        [Event.CloseSelectors, Event.SaveProperties (some 1), Event.LoadProperties (some 2),
         Event.selectedObjectChanged] ∧
      occursBefore (Event.SaveProperties (some 1)) (Event.LoadProperties (some 2))
        (SelectedObjectChanged exEnv (exState [some 1, some 2] "" [1] (some 1))).2 = true :=
  have h := SelectedObjectChanged_save_before_load exEnv
    (exState [some 1, some 2] "" [1] (some 1)) 1 (some 2) (by decide) rfl (by decide)
  ⟨by decide, h.1, h.2.1⟩

/-- C2, as stated, fails: with the previous object resolving, `ReadOnly` false
and a main window set, the CloseSelectors notification is made first and
SaveProperties(prev) after it; no SaveProperties precedes CloseSelectors. -/
theorem save_not_before_CloseSelectors_example :
    GetActiveObject exEnv (exState [some 1, some 2] "" [1] (some 1)) = some 1 ∧
      (exState [some 1, some 2] "" [1] (some 1)).mReadOnly = false ∧
      (exState [some 1, some 2] "" [1] (some 1)).mMainWindow = true ∧
      (SelectedObjectChanged exEnv (exState [some 1, some 2] "" [1] (some 1))).2 =
        [Event.CloseSelectors, Event.SaveProperties (some 1), Event.LoadProperties (some 2),
         Event.selectedObjectChanged] ∧
      occursBefore (Event.SaveProperties (some 1)) Event.CloseSelectors
        (SelectedObjectChanged exEnv (exState [some 1, some 2] "" [1] (some 1))).2 = false := by
  decide

/-- C2, amended. When the previous active object resolves, `ReadOnly` is false
and a main window is set, the order of one `SelectedObjectChanged` transition
is: CloseSelectors, then SaveProperties(prev), then the new active object is
resolved, then LoadProperties of it, then "selection changed". -/
theorem SelectedObjectChanged_close_before_save (env : Env) (s : State) (prev : Obj)
    (hPrev : GetActiveObject env s = some prev) (hRO : s.mReadOnly = false)
    (hMW : s.mMainWindow = true) :
    (SelectedObjectChanged env s).2 =
        [Event.CloseSelectors, Event.SaveProperties (some prev),
         Event.LoadProperties (GetActiveObject env (SelectedObjectChanged env s).1),
         Event.selectedObjectChanged] ∧
      GetActiveObject env (SelectedObjectChanged env s).1 =
        (match s.selection with
         | [] => none
         | first :: _ => s.mObjectModel.GetObject (mapToSource env s first)) ∧
      occursBefore Event.CloseSelectors (Event.SaveProperties (some prev))
        (SelectedObjectChanged env s).2 = true ∧
      occursBefore (Event.SaveProperties (some prev)) Event.CloseSelectors
        (SelectedObjectChanged env s).2 = false := by
  have ht := trace_of_change env s
  have hl := lock_after_change env s
  unfold GetActiveObject at hPrev ⊢
  rw [hPrev, hRO, hMW] at ht
  rw [ht]
  refine ⟨by simp, hl, ?_, ?_⟩ <;> simp [occursBefore]

theorem SelectedObjectChanged_close_before_save_witness :
    (SelectedObjectChanged exEnv (exState [some 1, some 2, some 3] "b" [0] (some 1))).2 =
        [Event.CloseSelectors, Event.SaveProperties (some 1),
         Event.LoadProperties (some 2), Event.selectedObjectChanged] ∧
      occursBefore Event.CloseSelectors (Event.SaveProperties (some 1))
        (SelectedObjectChanged exEnv (exState [some 1, some 2, some 3] "b" [0] (some 1))).2
          = true :=
  have h := SelectedObjectChanged_close_before_save exEnv
    (exState [some 1, some 2, some 3] "b" [0] (some 1)) 1 (by decide) rfl rfl
  ⟨h.1.trans (by decide), h.2.2.1⟩

/-! ## Replacing the list -/

/-- C3. After `SetObjectList(L)`, for every `L` (the empty one included) and
every prior state, the backing list is `L`, `GetActiveObject` returns the null
pointer, and the only call-out made is LoadProperties with no object. -/
theorem SetObjectList_resets_selection (env : Env) (s : State) (L : List Ptr) :
    (SetObjectList s L).1.mObjectModel.mObjects = L ∧
      GetActiveObject env (SetObjectList s L).1 = none ∧
      (SetObjectList s L).2 = [Event.LoadProperties none] := by
  refine ⟨rfl, ?_, rfl⟩
  simp [GetActiveObject, lock, SetObjectList]

/-! ## Programmatic selection -/

/-- C4. `Select(obj)` returns true exactly when `GetIndex(obj) != -1`, that is
exactly when `obj` is in the backing list; when it returns false the state
(selection, active object, list and everything else) is unchanged and no
call-out is made. -/
theorem Select_true_iff_present (env : Env) (s : State) (obj : Ptr) :
    ((Select env s obj).1 = true ↔ s.mObjectModel.GetIndex obj ≠ -1) ∧
      ((Select env s obj).1 = true ↔ obj ∈ s.mObjectModel.mObjects) ∧
      ((Select env s obj).1 = false →
        (Select env s obj).2.1 = s ∧ (Select env s obj).2.2 = []) := by
  have hiff := indexFrom_eq_neg_one_iff obj s.mObjectModel.mObjects 0
  by_cases h : s.mObjectModel.GetIndex obj = -1
  · have hn : obj ∉ s.mObjectModel.mObjects := hiff.mp h
    simp [Select, h, hn]
  · have hn : obj ∈ s.mObjectModel.mObjects := by
      by_contra hc
      exact h (hiff.mpr hc)
    have h1 : (Select env s obj).1 = true := by
      unfold Select
      rw [if_pos h]
      simp only []
      split <;> rfl
    simp [h1, h, hn]

theorem Select_true_iff_present_witness :
    (Select exEnv (exState [some 1, some 2] "" [0] (some 1)) (some 7)).2.1 =
        exState [some 1, some 2] "" [0] (some 1) ∧
      (Select exEnv (exState [some 1, some 2] "" [0] (some 1)) (some 7)).2.2 = [] :=
  (Select_true_iff_present exEnv (exState [some 1, some 2] "" [0] (some 1)) (some 7)).2.2
    (by decide)

/-! ## Read-only mode -/

theorem lock_SetReadOnly (env : Env) (s : State) (b : Bool) :
    lock env (SetReadOnly s b) = lock env s := rfl

theorem state_after_change_SetReadOnly (env : Env) (s : State) (b : Bool) :
    (SelectedObjectChanged env (SetReadOnly s b)).1 =
      SetReadOnly (SelectedObjectChanged env s).1 b := by
  unfold SelectedObjectChanged
  cases h : s.selection with
  | nil => simp [SetReadOnly, h]
  | cons first rest =>
    simp [SetReadOnly, h, mapToSource, visibleRows]
    rfl

/-- C9. In every state with `ReadOnly` true (any state after
`SetReadOnly(true)`), neither `SelectedObjectChanged` nor
`SaveActiveProperties` calls SaveProperties. The `SelectedObjectChanged`
transition is otherwise what it is with `ReadOnly` false: its trace is the
editable trace with the SaveProperties call-out removed, the successor state
differs in the flag only, CloseSelectors is still notified when the previous
object resolves and a main window is set, LoadProperties is called on the new
active object and "selection changed" is emitted once. With `ReadOnly` false,
`SaveActiveProperties` makes at most one SaveProperties call-out, and calls
SaveProperties(obj) once exactly when the active object resolves to `obj`. -/
theorem readOnly_suppresses_only_save (env : Env) (s : State) :
    (∀ e ∈ (SelectedObjectChanged env (SetReadOnly s true)).2, isSave e = false) ∧
      (SaveActiveProperties env (SetReadOnly s true)).2 = [] ∧
      (SelectedObjectChanged env (SetReadOnly s true)).2 =
        (SelectedObjectChanged env (SetReadOnly s false)).2.filter (fun e => !isSave e) ∧
      (SelectedObjectChanged env (SetReadOnly s true)).1 =
        SetReadOnly (SelectedObjectChanged env (SetReadOnly s false)).1 true ∧
      GetActiveObject env (SelectedObjectChanged env (SetReadOnly s true)).1 =
        GetActiveObject env (SelectedObjectChanged env (SetReadOnly s false)).1 ∧
      (∀ prev : Obj, GetActiveObject env s = some prev → s.mMainWindow = true →
        (SelectedObjectChanged env (SetReadOnly s true)).2 =
          [Event.CloseSelectors,
           Event.LoadProperties
             (GetActiveObject env (SelectedObjectChanged env (SetReadOnly s true)).1),
           Event.selectedObjectChanged]) ∧
      Event.LoadProperties (GetActiveObject env (SelectedObjectChanged env (SetReadOnly s true)).1)
        ∈ (SelectedObjectChanged env (SetReadOnly s true)).2 ∧
      (SelectedObjectChanged env (SetReadOnly s true)).2.count Event.selectedObjectChanged = 1 ∧
      ((SaveActiveProperties env (SetReadOnly s false)).2.filter isSave).length ≤ 1 ∧
      (∀ obj : Obj,
        (SaveActiveProperties env (SetReadOnly s false)).2.count
            (Event.SaveProperties (some obj)) = 1 ↔
          GetActiveObject env (SetReadOnly s false) = some obj) := by
  have htT := trace_of_change env (SetReadOnly s true)
  have htF := trace_of_change env (SetReadOnly s false)
  have hsT := state_after_change_SetReadOnly env s true
  have hsF := state_after_change_SetReadOnly env s false
  have hlock : lock env (SelectedObjectChanged env (SetReadOnly s true)).1 =
      lock env (SelectedObjectChanged env (SetReadOnly s false)).1 := by
    rw [hsT, hsF, lock_SetReadOnly, lock_SetReadOnly]
  rw [lock_SetReadOnly] at htT htF
  have hroT : (SetReadOnly s true).mReadOnly = true := rfl
  have hroF : (SetReadOnly s false).mReadOnly = false := rfl
  have hmwT : (SetReadOnly s true).mMainWindow = s.mMainWindow := rfl
  have hmwF : (SetReadOnly s false).mMainWindow = s.mMainWindow := rfl
  rw [hroT, hmwT] at htT
  rw [hroF, hmwF, ← hlock] at htF
  refine ⟨?_, ?_, ?_, ?_, hlock, ?_, ?_, ?_, ?_, ?_⟩
  · rw [htT]
    cases lock env s <;> cases s.mMainWindow <;> simp [isSave]
  · simp [SaveActiveProperties, SetReadOnly]
  · rw [htT, htF]
    cases lock env s <;> cases s.mMainWindow <;> simp [isSave]
  · rw [hsT, hsF]
    rfl
  · intro prev hprev hmw
    unfold GetActiveObject at hprev ⊢
    rw [htT, hprev, hmw]
    rfl
  · unfold GetActiveObject
    rw [htT]
    simp
  · rw [htT]
    cases lock env s <;> cases s.mMainWindow <;> simp
  · unfold SaveActiveProperties
    rw [hroF, lock_SetReadOnly]
    cases lock env s <;> simp [isSave]
  · intro obj
    unfold SaveActiveProperties GetActiveObject
    rw [hroF, lock_SetReadOnly]
    cases h : lock env s with
    | none => simp
    | some o =>
      by_cases ho : o = obj
      · subst ho; simp
      · have hne : (Event.SaveProperties (some o) == Event.SaveProperties (some obj)) = false := by
          simp [ho]
        simp [ho, List.count_cons, hne]

/-! ## Selecting and moving under a filter -/

/-- C5 at a failing input. The list is [1 "Alpha", 2 "beta", 3 "Bravo"] and the
filter term is "b", so the view shows rows beta and Bravo. Object 2 sits at
underlying row 1; `Select(2)` succeeds and selects view row 1, which the
filter maps to underlying row 2: object 3 becomes the active object. -/
theorem Select_under_filter_example :
    some 2 ∈ (exState [some 1, some 2, some 3] "b" [] none).mObjectModel.mObjects ∧
      (exState [some 1, some 2, some 3] "b" [] none).mObjectModel.GetIndex (some 2) = 1 ∧
      visibleRows exEnv (exState [some 1, some 2, some 3] "b" [] none) = [1, 2] ∧
      (Select exEnv (exState [some 1, some 2, some 3] "b" [] none) (some 2)).1 = true ∧
      (Select exEnv (exState [some 1, some 2, some 3] "b" [] none) (some 2)).2.1.selection
        = [1] ∧
      GetActiveObject exEnv
        (Select exEnv (exState [some 1, some 2, some 3] "b" [] none) (some 2)).2.1 = some 3 ∧
      (Select exEnv (exState [some 1, some 2, some 3] "b" [] none) (some 2)).2.2 =
        [Event.LoadProperties (some 3), Event.selectedObjectChanged] := by
  decide

/-- C6 at a failing input. The list is [1 "Alpha", 2 "beta", 3 "Bravo"], the
filter term is "b" and the first visible row is selected: object 2, whose
underlying row is 1, not 0. `MoveUp` emits no "object moved" event. -/
theorem MoveUp_under_filter_example :
    mapToSource exEnv (exState [some 1, some 2, some 3] "b" [0] (some 2)) 0 = some 1 ∧
      (exState [some 1, some 2, some 3] "b" [0] (some 2)).mObjectModel.GetObject
        (mapToSource exEnv (exState [some 1, some 2, some 3] "b" [0] (some 2)) 0) = some 2 ∧
      (MoveUp exEnv (exState [some 1, some 2, some 3] "b" [0] (some 2))).2 = [] := by
  decide

/-- C7 at a failing input. The list is [1 "Alpha", 2 "beta", 3 "Bravo"], the
filter term is "b" and the second visible row is selected: object 3, whose
underlying row is 2, the last one (`rowCount - 1`). `MoveDown` emits an
"object moved" event for it. -/
theorem MoveDown_under_filter_example :
    mapToSource exEnv (exState [some 1, some 2, some 3] "b" [1] (some 3)) 1 = some 2 ∧
      (exState [some 1, some 2, some 3] "b" [1] (some 3)).mObjectModel.rowCount - 1 = 2 ∧
      (MoveDown exEnv (exState [some 1, some 2, some 3] "b" [1] (some 3))).2 =
        [Event.objectMoved (some 3) false] := by
  decide

/-! ## The exported mapping -/

theorem mem_mapKeys_mapAssign (k k' : Nat) (v : String) (m : List (Nat × String)) :
    k ∈ mapKeys (mapAssign k' v m) ↔ k = k' ∨ k ∈ mapKeys m := by
  induction m with
  | nil => simp [mapAssign, mapKeys]
  | cons e rest ih =>
    obtain ⟨k1, v1⟩ := e
    simp only [mapAssign]
    by_cases h1 : k' < k1
    · simp [h1, mapKeys]
    · by_cases h2 : k' = k1
      · subst h2
        simp [mapKeys]
      · rw [if_neg h1, if_neg h2]
        simp only [mapKeys, List.map_cons, List.mem_cons] at ih ⊢
        rw [ih]
        tauto

theorem mapFind_mapAssign (k k' : Nat) (v : String) (m : List (Nat × String)) :
    mapFind k (mapAssign k' v m) = if k = k' then some v else mapFind k m := by
  induction m with
  | nil => simp [mapAssign, mapFind]
  | cons e rest ih =>
    obtain ⟨k1, v1⟩ := e
    simp only [mapAssign]
    by_cases h1 : k' < k1
    · simp [h1, mapFind]
    · by_cases h2 : k' = k1
      · subst h2
        by_cases hk : k = k' <;> simp [mapFind, hk]
      · rw [if_neg h1, if_neg h2]
        simp only [mapFind]
        rw [ih]
        by_cases hk : k = k'
        · subst hk
          simp [h2]
        · simp [hk]

theorem sorted_mapAssign (k : Nat) (v : String) (m : List (Nat × String))
    (h : (mapKeys m).Pairwise (· < ·)) : (mapKeys (mapAssign k v m)).Pairwise (· < ·) := by
  induction m with
  | nil => simp [mapAssign, mapKeys]
  | cons e rest ih =>
    obtain ⟨k1, v1⟩ := e
    have hcons : (k1 :: mapKeys rest).Pairwise (· < ·) := h
    rw [List.pairwise_cons] at hcons
    obtain ⟨hhead, htail⟩ := hcons
    simp only [mapAssign]
    by_cases h1 : k < k1
    · rw [if_pos h1]
      show (k :: k1 :: mapKeys rest).Pairwise (· < ·)
      rw [List.pairwise_cons]
      refine ⟨?_, h⟩
      intro x hx
      rcases List.mem_cons.mp hx with hx | hx
      · omega
      · have := hhead x hx
        omega
    · by_cases h2 : k = k1
      · subst h2
        simp only [lt_self_iff_false, if_false, if_true]
        exact h
      · rw [if_neg h1, if_neg h2]
        show (k1 :: mapKeys (mapAssign k v rest)).Pairwise (· < ·)
        rw [List.pairwise_cons]
        refine ⟨?_, ih htail⟩
        intro x hx
        rcases (mem_mapKeys_mapAssign x k v rest).mp hx with hx | hx
        · omega
        · exact hhead x hx

theorem mem_mapKeys_assignAll (k : Nat) (es m : List (Nat × String)) :
    k ∈ mapKeys (assignAll es m) ↔ k ∈ es.map Prod.fst ∨ k ∈ mapKeys m := by
  induction es generalizing m with
  | nil => simp [assignAll]
  | cons e rest ih =>
    have := ih (mapAssign e.1 e.2 m)
    simp only [assignAll, List.foldl_cons] at this ⊢
    rw [this, mem_mapKeys_mapAssign]
    simp only [List.map_cons, List.mem_cons]
    tauto

theorem sorted_assignAll (es m : List (Nat × String))
    (h : (mapKeys m).Pairwise (· < ·)) : (mapKeys (assignAll es m)).Pairwise (· < ·) := by
  induction es generalizing m with
  | nil => simpa [assignAll] using h
  | cons e rest ih =>
    have := ih (mapAssign e.1 e.2 m) (sorted_mapAssign e.1 e.2 m h)
    simpa [assignAll] using this

theorem mapFind_assignAll_of_not_mem (k : Nat) (es m : List (Nat × String))
    (h : k ∉ es.map Prod.fst) : mapFind k (assignAll es m) = mapFind k m := by
  induction es generalizing m with
  | nil => simp [assignAll]
  | cons e rest ih =>
    simp only [List.map_cons, List.mem_cons, not_or] at h
    have := ih (mapAssign e.1 e.2 m) h.2
    simp only [assignAll, List.foldl_cons] at this ⊢
    rw [this, mapFind_mapAssign, if_neg h.1]

theorem mapFind_assignAll_last (k : Nat) (v : String) (es1 es2 m : List (Nat × String))
    (h : k ∉ es2.map Prod.fst) :
    mapFind k (assignAll (es1 ++ (k, v) :: es2) m) = some v := by
  have h2 := mapFind_assignAll_of_not_mem k es2 (mapAssign k v (assignAll es1 m)) h
  simp only [assignAll, List.foldl_append, List.foldl_cons] at h2 ⊢
  rw [h2, mapFind_mapAssign, if_pos rfl]

theorem mappingLoop_eq (env : Env) (m : ObjectListModel) (fuel i : Nat)
    (acc : List (Nat × String)) :
    mappingLoop env m fuel i acc = assignAll ((List.range' i fuel).map (rowEntry env m)) acc := by
  induction fuel generalizing i acc with
  | zero => simp [mappingLoop, assignAll]
  | succ n ih =>
    simp only [mappingLoop, List.range'_succ, List.map_cons, assignAll, List.foldl_cons]
    rw [ih]
    rfl

theorem GetObjectMapping_eq (env : Env) (s : State) :
    GetObjectMapping env s =
      assignAll ((List.range s.mObjectModel.mObjects.length).map (rowEntry env s.mObjectModel))
        [] := by
  unfold GetObjectMapping
  rw [mappingLoop_eq, List.range_eq_range']
  simp [ObjectListModel.rowCount]

theorem entry_keys (env : Env) (s : State) (l : List Nat) :
    (l.map (rowEntry env s.mObjectModel)).map Prod.fst = l.map (rowKey env s) := by
  simp [rowEntry, rowKey, Function.comp_def]

theorem mapKeys_GetObjectMapping_sorted (env : Env) (s : State) :
    (mapKeys (GetObjectMapping env s)).Pairwise (· < ·) := by
  rw [GetObjectMapping_eq]
  exact sorted_assignAll _ [] (by simp [mapKeys])

theorem mem_mapKeys_GetObjectMapping (env : Env) (s : State) (k : Nat) :
    k ∈ mapKeys (GetObjectMapping env s) ↔
      k ∈ (List.range s.mObjectModel.mObjects.length).map (rowKey env s) := by
  rw [GetObjectMapping_eq, mem_mapKeys_assignAll, entry_keys]
  simp [mapKeys]

theorem length_GetObjectMapping (env : Env) (s : State) :
    (GetObjectMapping env s).length =
      ((List.range s.mObjectModel.mObjects.length).map (rowKey env s)).dedup.length := by
  have hnd : (mapKeys (GetObjectMapping env s)).Nodup :=
    (mapKeys_GetObjectMapping_sorted env s).imp (fun h => Nat.ne_of_lt h)
  have hperm : List.Perm (mapKeys (GetObjectMapping env s))
      ((List.range s.mObjectModel.mObjects.length).map (rowKey env s)).dedup := by
    rw [List.perm_ext_iff_of_nodup hnd (List.nodup_dedup _)]
    intro k
    rw [mem_mapKeys_GetObjectMapping, List.mem_dedup]
  have := hperm.length_eq
  simpa [mapKeys] using this

/-- C8, as stated, fails. With the identifier hook of the base class (every
identifier is the empty string, parsed as 0) a list of two rows yields a
mapping with a single entry. -/
theorem GetObjectMapping_size_example :
    GetObjectMapping exBaseEnv (exState [some 1, some 2] "" [] none) = [(0, "beta")] ∧
      (exState [some 1, some 2] "" [] none).mObjectModel.rowCount = 2 ∧
      ((GetObjectMapping exBaseEnv (exState [some 1, some 2] "" [] none)).length : Int) ≠
        (exState [some 1, some 2] "" [] none).mObjectModel.rowCount := by
  decide

/-- C8, amended. For every list and every filter term, the number of entries of
`GetObjectMapping()` is the number of distinct keys (parsed identifiers) among
the rows of the full unfiltered list: at most the number of rows, and equal to
it when the rows' keys are pairwise distinct. The mapping does not depend on
the filter term: it is the one returned with any other term, the empty one
included. -/
theorem GetObjectMapping_size_and_filter (env : Env) (s : State) :
    (GetObjectMapping env s).length =
        ((List.range s.mObjectModel.mObjects.length).map (rowKey env s)).dedup.length ∧
      ((GetObjectMapping env s).length : Int) ≤ s.mObjectModel.rowCount ∧
      (((List.range s.mObjectModel.mObjects.length).map (rowKey env s)).Nodup →
        ((GetObjectMapping env s).length : Int) = s.mObjectModel.rowCount) ∧
      (∀ term : String, GetObjectMapping env (Search s term) = GetObjectMapping env s) := by
  have hlen := length_GetObjectMapping env s
  refine ⟨hlen, ?_, ?_, fun _ => rfl⟩
  · have h := (List.dedup_sublist
      ((List.range s.mObjectModel.mObjects.length).map (rowKey env s))).length_le
    simp only [List.length_map, List.length_range] at h
    simp only [ObjectListModel.rowCount]
    omega
  · intro hnd
    rw [hlen, hnd.dedup]
    simp [ObjectListModel.rowCount]

theorem GetObjectMapping_size_and_filter_witness :
    ((GetObjectMapping exEnv (exState [some 1, some 2, some 3] "b" [] none)).length : Int) =
      (exState [some 1, some 2, some 3] "b" [] none).mObjectModel.rowCount :=
  (GetObjectMapping_size_and_filter exEnv (exState [some 1, some 2, some 3] "b" [] none)).2.2.1
    (by decide)

/-! ## The identifier parse -/

theorem isSpace_of_isDecimalDigit (c : Char) (h : isDecimalDigit c = true) :
    isSpace c = false := by
  simp only [isDecimalDigit, Bool.and_eq_true, decide_eq_true_eq] at h
  simp only [isSpace, Bool.or_eq_false_iff, Bool.and_eq_false_imp, decide_eq_true_eq,
    decide_eq_false_iff_not, beq_eq_false_iff_ne, ne_eq]
  omega

theorem parseDigits_none (c : Char) (l : List Char) (acc : Nat)
    (hc : c ∈ l) (hd : isDecimalDigit c = false) : parseDigits l acc = none := by
  induction l generalizing acc with
  | nil => simp at hc
  | cons a t ih =>
    simp only [parseDigits]
    by_cases ha : isDecimalDigit a = true
    · rw [if_pos ha]
      rcases List.mem_cons.mp hc with h | h
      · subst h
        rw [hd] at ha
        exact absurd ha (by simp)
      · exact ih _ h
    · rw [if_neg ha]

theorem parseDigits_digits (l : List Char) (acc n : Nat) (h : parseDigits l acc = some n) :
    ∀ c ∈ l, isDecimalDigit c = true := by
  intro c hc
  by_contra hd
  rw [parseDigits_none c l acc hc (by simpa using hd)] at h
  exact absurd h (by simp)

theorem parseDigits_value (l : List Char) (acc : Nat)
    (h : ∀ c ∈ l, isDecimalDigit c = true) :
    parseDigits l acc = some (acc * 10 ^ l.length + decimalValue l) := by
  induction l generalizing acc with
  | nil => simp [parseDigits, decimalValue]
  | cons a t ih =>
    have ha : isDecimalDigit a = true := h a (List.mem_cons_self a t)
    have ht : ∀ c ∈ t, isDecimalDigit c = true := fun c hc => h c (List.mem_cons_of_mem a hc)
    simp only [parseDigits, ha, if_true, decimalValue, List.length_cons]
    rw [ih _ ht]
    congr 1
    ring

theorem dropWhile_append_of_all (p : Char → Bool) (pre rest : List Char)
    (h : ∀ c ∈ pre, p c = true) : (pre ++ rest).dropWhile p = rest.dropWhile p := by
  induction pre with
  | nil => rfl
  | cons a t ih =>
    have ha : p a = true := h a (List.mem_cons_self a t)
    rw [List.cons_append, List.dropWhile_cons, if_pos ha]
    exact ih (fun c hc => h c (List.mem_cons_of_mem a hc))

theorem dropWhile_of_head_false (p : Char → Bool) (a : Char) (t : List Char)
    (h : p a = false) : (a :: t).dropWhile p = a :: t := by
  rw [List.dropWhile_cons]
  simp [h]

theorem trimChars_core (pre body post : List Char)
    (hpre : ∀ c ∈ pre, isSpace c = true) (hpost : ∀ c ∈ post, isSpace c = true)
    (hne : body ≠ []) (hbody : ∀ c ∈ body, isSpace c = false) :
    trimChars (pre ++ body ++ post) = body := by
  unfold trimChars
  rw [List.append_assoc, dropWhile_append_of_all isSpace pre _ hpre]
  have h1 : (body ++ post).dropWhile isSpace = body ++ post := by
    cases body with
    | nil => exact absurd rfl hne
    | cons a t =>
      exact dropWhile_of_head_false isSpace a _ (hbody a (List.mem_cons_self a t))
  rw [h1, List.reverse_append,
    dropWhile_append_of_all isSpace post.reverse _
      (fun c hc => hpost c (List.mem_reverse.mp hc))]
  have h2 : body.reverse.dropWhile isSpace = body.reverse := by
    cases hr : body.reverse with
    | nil =>
      exact absurd (List.reverse_eq_nil_iff.mp hr) hne
    | cons z r =>
      have hz : z ∈ body := by
        rw [← List.mem_reverse, hr]
        exact List.mem_cons_self z r
      exact dropWhile_of_head_false isSpace z r (hbody z hz)
  rw [h2, List.reverse_reverse]

theorem trimChars_decompose (l : List Char) :
    ∃ pre post : List Char, l = pre ++ trimChars l ++ post ∧
      (∀ c ∈ pre, isSpace c = true) ∧ (∀ c ∈ post, isSpace c = true) := by
  refine ⟨l.takeWhile isSpace,
    ((l.dropWhile isSpace).reverse.takeWhile isSpace).reverse, ?_, ?_, ?_⟩
  · have h1 := List.takeWhile_append_dropWhile isSpace l
    have h2 := List.takeWhile_append_dropWhile isSpace (l.dropWhile isSpace).reverse
    have h3 : l.dropWhile isSpace =
        ((l.dropWhile isSpace).reverse.dropWhile isSpace).reverse ++
          ((l.dropWhile isSpace).reverse.takeWhile isSpace).reverse := by
      rw [← List.reverse_append, h2, List.reverse_reverse]
    unfold trimChars
    rw [List.append_assoc, ← h3, h1]
  · intro c hc
    exact List.mem_takeWhile_imp hc
  · intro c hc
    exact List.mem_takeWhile_imp (List.mem_reverse.mp hc)

/-- The conversion accepts every valid unsigned integer text and returns its
value. -/
theorem parseUInt_of_IsUIntText (str : String) (n : Nat) (h : IsUIntText str n) :
    parseUInt str = some n := by
  obtain ⟨pre, sign, ds, post, hstr, hpre, hpost, hsign, hne, hds, hval, hlt⟩ := h
  have hdsSpace : ∀ c ∈ ds, isSpace c = false :=
    fun c hc => isSpace_of_isDecimalDigit c (hds c hc)
  have hbody : ∀ c ∈ sign ++ ds, isSpace c = false := by
    intro c hc
    rcases List.mem_append.mp hc with h | h
    · rcases hsign with hs | hs
      · rw [hs] at h
        simp at h
      · rw [hs] at h
        have : c = '+' := by simpa using h
        subst this
        decide
    · exact hdsSpace c h
  have hbne : sign ++ ds ≠ [] := by
    intro hc
    exact hne (List.append_eq_nil.mp hc).2
  have htrim : trimChars str.toList = sign ++ ds := by
    rw [hstr, List.append_assoc pre sign ds]
    exact trimChars_core pre (sign ++ ds) post hpre hpost hbne hbody
  have hmatch : (match trimChars str.toList with
      | '+' :: rest => rest
      | _ => trimChars str.toList) = ds := by
    rw [htrim]
    rcases hsign with hs | hs
    · subst hs
      cases ds with
      | nil => exact absurd rfl hne
      | cons a t =>
        have ha : isDecimalDigit a = true := hds a (List.mem_cons_self a t)
        have hap : a ≠ '+' := by
          intro hc
          subst hc
          exact absurd ha (by decide)
        simp only [List.nil_append]
        split
        · rename_i rest heq
          exact absurd (List.cons.inj heq).1.symm (fun h => hap h.symm)
        · rfl
    · subst hs
      rfl
  have hparse := parseDigits_value ds 0 hds
  rw [Nat.zero_mul, Nat.zero_add, hval] at hparse
  have hempty : ds.isEmpty = false := by
    cases ds with
    | nil => exact absurd rfl hne
    | cons a t => rfl
  unfold parseUInt
  simp only [hmatch, hempty, hparse, hlt, if_true, Bool.false_eq_true, if_false]

theorem plus_sign_split (cs : List Char) :
    ∃ sign : List Char, (sign = [] ∨ sign = ['+']) ∧
      cs = sign ++ (match cs with
        | '+' :: rest => rest
        | _ => cs) := by
  split
  · exact ⟨['+'], Or.inr rfl, rfl⟩
  · exact ⟨[], Or.inl rfl, rfl⟩

/-- Whatever the conversion accepts is a valid unsigned integer text of the
value returned. -/
theorem IsUIntText_of_parseUInt (str : String) (n : Nat) (h : parseUInt str = some n) :
    IsUIntText str n := by
  obtain ⟨pre, post, hdec, hpre, hpost⟩ := trimChars_decompose str.toList
  obtain ⟨sign, hsign, hcs⟩ := plus_sign_split (trimChars str.toList)
  unfold parseUInt at h
  simp only [] at h
  generalize hds : (match trimChars str.toList with
    | '+' :: rest => rest
    | _ => trimChars str.toList) = ds at h hcs
  cases hempty : ds.isEmpty with
  | true =>
    rw [hempty] at h
    exact absurd h (by simp)
  | false =>
    rw [hempty] at h
    simp only [Bool.false_eq_true, if_false] at h
    cases hm : parseDigits ds 0 with
    | none =>
      rw [hm] at h
      exact absurd h (by simp)
    | some m =>
      rw [hm] at h
      simp only [] at h
      by_cases hlt : m < 2 ^ 32
      · rw [if_pos hlt] at h
        have hmn : m = n := Option.some.inj h
        subst hmn
        have hdig := parseDigits_digits ds 0 m hm
        have hv := parseDigits_value ds 0 hdig
        rw [hm, Nat.zero_mul, Nat.zero_add] at hv
        have hval : decimalValue ds = m := (Option.some.inj hv).symm
        have hne : ds ≠ [] := by
          intro hc
          rw [hc] at hempty
          exact absurd hempty (by simp)
        refine ⟨pre, sign, ds, post, ?_, hpre, hpost, hsign, hne, hdig, hval, hlt⟩
        rw [List.append_assoc pre sign ds, ← hcs]
        exact hdec
      · rw [if_neg hlt] at h
        exact absurd h (by simp)

theorem toUInt_of_IsUIntText (str : String) (n : Nat) (h : IsUIntText str n) :
    toUInt str = n := by
  simp [toUInt, parseUInt_of_IsUIntText str n h]

theorem toUInt_of_not_IsUIntText (str : String) (h : ∀ n : Nat, ¬ IsUIntText str n) :
    toUInt str = 0 := by
  cases hp : parseUInt str with
  | none => simp [toUInt, hp]
  | some n => exact absurd (IsUIntText_of_parseUInt str n hp) (h n)

theorem toUInt_of_bad_char (str : String) (c : Char) (hc : c ∈ str.toList)
    (hd : isDecimalDigit c = false) (hw : isSpace c = false) (hplus : c ≠ '+') :
    toUInt str = 0 := by
  apply toUInt_of_not_IsUIntText
  intro n hn
  obtain ⟨pre, sign, ds, post, hstr, hpre, hpost, hsign, _, hds, _, _⟩ := hn
  rw [hstr] at hc
  simp only [List.mem_append] at hc
  rcases hc with ((h | h) | h) | h
  · rw [hpre c h] at hw
    exact absurd hw (by simp)
  · rcases hsign with hs | hs
    · rw [hs] at h
      simp at h
    · rw [hs] at h
      exact hplus (by simpa using h)
  · rw [hds c h] at hd
    exact absurd hd (by simp)
  · rw [hpost c h] at hw
    exact absurd hw (by simp)

theorem digitChar_decimal :
    ∀ k : Nat, k < 10 →
      isDecimalDigit (Nat.digitChar k) = true ∧ (Nat.digitChar k).toNat - 48 = k := by
  decide

theorem parseDigits_toDigitsCore (fuel n : Nat) (ds : List Char) (h : n < fuel) :
    parseDigits (Nat.toDigitsCore 10 fuel n ds) 0 = parseDigits ds n := by
  induction fuel generalizing n ds with
  | zero => omega
  | succ f ih =>
    have hd := digitChar_decimal (n % 10) (Nat.mod_lt n (by decide))
    unfold Nat.toDigitsCore
    simp only []
    by_cases h0 : n / 10 = 0
    · rw [if_pos h0]
      simp only [parseDigits, hd.1, if_true, hd.2]
      congr 1
      omega
    · rw [if_neg h0, ih (n / 10) _ (by omega)]
      simp only [parseDigits, hd.1, if_true, hd.2]
      congr 1
      omega

/-- The decimal numeral of a number that fits 32 bits is a valid unsigned
integer text of that number. -/
theorem IsUIntText_toString (n : Nat) (h : n < 2 ^ 32) : IsUIntText (toString n) n := by
  have hlist : (toString n).toList = Nat.toDigits 10 n := rfl
  have hp : parseDigits (Nat.toDigits 10 n) 0 = some n := by
    unfold Nat.toDigits
    rw [parseDigits_toDigitsCore (n + 1) n [] (Nat.lt_succ_self n)]
    rfl
  have hdig := parseDigits_digits _ 0 n hp
  have hv := parseDigits_value _ 0 hdig
  rw [hp, Nat.zero_mul, Nat.zero_add] at hv
  have hne : Nat.toDigits 10 n ≠ [] := by
    intro hc
    rw [hc] at hp
    have h0 : n = 0 := (Option.some.inj hp).symm
    subst h0
    exact absurd hc (by decide)
  refine ⟨[], [], Nat.toDigits 10 n, [], ?_, ?_, ?_, Or.inl rfl, hne, hdig,
    (Option.some.inj hv).symm, h⟩
  · rw [hlist]
    simp
  · intro c hc
    simp at hc
  · intro c hc
    simp at hc

/-- C10. The keys of `GetObjectMapping()` are exactly the `toUInt` parses of
`GetObjectID` over the rows of the list, each key once, and a key maps to the
rendered text of the last row, in row order, whose identifier parses to it.
The parse is that of an unsigned integer: an identifier that reads as white
space, an optional plus sign, decimal digits, white space, with a value that
fits 32 bits, is filed under that value (so the decimal numeral of `n` is filed
under `n`), and every other identifier (for one, an identifier holding a
character that is neither a digit, white space nor a plus sign) under key 0. -/
theorem GetObjectMapping_keys_last_wins (env : Env) (s : State) :
    (∀ k : Nat, k ∈ mapKeys (GetObjectMapping env s) ↔
        ∃ i : Nat, (i : Int) < s.mObjectModel.rowCount ∧
          toUInt (env.GetObjectID (s.mObjectModel.GetObject (some i))) = k) ∧
      (mapKeys (GetObjectMapping env s)).Nodup ∧
      (∀ i : Nat, (i : Int) < s.mObjectModel.rowCount →
        (∀ j : Nat, i < j → (j : Int) < s.mObjectModel.rowCount →
          toUInt (env.GetObjectID (s.mObjectModel.GetObject (some j))) ≠
            toUInt (env.GetObjectID (s.mObjectModel.GetObject (some i)))) →
        mapFind (toUInt (env.GetObjectID (s.mObjectModel.GetObject (some i))))
            (GetObjectMapping env s) = some (s.mObjectModel.data env i)) ∧
      (∀ i n : Nat, IsUIntText (env.GetObjectID (s.mObjectModel.GetObject (some i))) n →
        toUInt (env.GetObjectID (s.mObjectModel.GetObject (some i))) = n) ∧
      (∀ i n : Nat, n < 2 ^ 32 →
        env.GetObjectID (s.mObjectModel.GetObject (some i)) = toString n →
        toUInt (env.GetObjectID (s.mObjectModel.GetObject (some i))) = n) ∧
      (∀ i : Nat,
        (∀ n : Nat, ¬ IsUIntText (env.GetObjectID (s.mObjectModel.GetObject (some i))) n) →
        toUInt (env.GetObjectID (s.mObjectModel.GetObject (some i))) = 0) ∧
      (∀ i : Nat, parseUInt (env.GetObjectID (s.mObjectModel.GetObject (some i))) = none →
        toUInt (env.GetObjectID (s.mObjectModel.GetObject (some i))) = 0) ∧
      (∀ (i : Nat) (c : Char),
        c ∈ (env.GetObjectID (s.mObjectModel.GetObject (some i))).toList →
        isDecimalDigit c = false → isSpace c = false → c ≠ '+' →
        toUInt (env.GetObjectID (s.mObjectModel.GetObject (some i))) = 0) := by
  refine ⟨?_, ?_, ?_, ?_, ?_, ?_, ?_, ?_⟩
  · intro k
    rw [mem_mapKeys_GetObjectMapping]
    simp only [List.mem_map, List.mem_range, ObjectListModel.rowCount, rowKey, Nat.cast_lt]
  · exact (mapKeys_GetObjectMapping_sorted env s).imp (fun h => Nat.ne_of_lt h)
  · intro i hi hlast
    simp only [ObjectListModel.rowCount, Nat.cast_lt] at hi hlast
    have hsplit : List.range s.mObjectModel.mObjects.length =
        List.range' 0 i ++ i :: List.range' (i + 1) (s.mObjectModel.mObjects.length - i - 1) := by
      rw [List.range_eq_range', ← List.range'_succ]
      have h := List.range'_append_1 0 i (s.mObjectModel.mObjects.length - i - 1 + 1)
      rw [Nat.zero_add] at h
      rw [h]
      congr 1
      omega
    rw [GetObjectMapping_eq, hsplit, List.map_append, List.map_cons]
    apply mapFind_assignAll_last
    rw [entry_keys]
    intro hmem
    obtain ⟨j, hj, hjk⟩ := List.mem_map.mp hmem
    rw [List.mem_range'_1] at hj
    exact hlast j (by omega) (by omega) hjk
  · intro i n h
    exact toUInt_of_IsUIntText _ n h
  · intro i n hlt hid
    rw [hid]
    exact toUInt_of_IsUIntText _ n (IsUIntText_toString n hlt)
  · intro i h
    exact toUInt_of_not_IsUIntText _ h
  · intro i h
    simp [toUInt, h]
  · intro i c hc hd hw hp
    exact toUInt_of_bad_char _ c hc hd hw hp

theorem GetObjectMapping_keys_last_wins_witness :
    mapFind 7 (GetObjectMapping exDupEnv (exState [some 1, some 2, some 3] "" [] none)) =
        some "beta" ∧
      GetObjectMapping exDupEnv (exState [some 1, some 2, some 3] "" [] none) =
        [(0, "Bravo"), (7, "beta")] ∧
      GetObjectMapping exEnv (exState [some 1, some 2, some 3] "b" [] none) =
        [(1, "Alpha"), (2, "beta"), (3, "Bravo")] ∧
      toUInt (exEnv.GetObjectID (some 3)) = 3 :=
  ⟨(GetObjectMapping_keys_last_wins exDupEnv
      (exState [some 1, some 2, some 3] "" [] none)).2.2.1 1 (by decide)
      (fun j h1 h2 => by
        simp only [ObjectListModel.rowCount, exState, List.length_cons, List.length_nil,
          Nat.cast_lt] at h2
        have hj : j = 2 := by omega
        subst hj
        decide),
    by decide, by decide,
    (GetObjectMapping_keys_last_wins exEnv
      (exState [some 1, some 2, some 3] "b" [] none)).2.2.2.2.1 2 3 (by decide) (by decide)⟩

/-! ## The unfiltered view

With no row hidden by the filter, view rows and underlying rows coincide, and
`Select`, `MoveUp` and `MoveDown` act on the underlying row they name. -/

theorem containsCI_empty (text : String) : containsCI "" text = true := by
  unfold containsCI
  simp only [String.toList, List.map_nil, List.any_eq_true]
  refine ⟨List.map Char.toLower text.data, ?_, by simp [List.isPrefixOf]⟩
  cases List.map Char.toLower text.data <;> simp [List.tails]

theorem visibleRows_of_empty_term (env : Env) (s : State) (h : s.filterTerm = "") :
    visibleRows env s = List.range s.mObjectModel.mObjects.length := by
  unfold visibleRows
  rw [List.filter_eq_self]
  intro i _
  simp [filterAcceptsRow, h, containsCI_empty]

theorem indexFrom_spec (obj : Ptr) (l : List Ptr) (i : Nat)
    (h : ObjectListModel.indexFrom obj l i ≠ -1) :
    ∃ k : Nat, ObjectListModel.indexFrom obj l i = ((i + k : Nat) : Int) ∧
      l.get? k = some obj := by
  induction l generalizing i with
  | nil => simp [ObjectListModel.indexFrom] at h
  | cons p ps ih =>
    simp only [ObjectListModel.indexFrom] at h ⊢
    by_cases hp : p = obj
    · rw [if_pos hp]
      exact ⟨0, by simp, by simp [hp]⟩
    · rw [if_neg hp] at h ⊢
      obtain ⟨k, hk1, hk2⟩ := ih (i + 1) h
      refine ⟨k + 1, ?_, by simpa using hk2⟩
      rw [hk1]
      congr 1
      omega

theorem selection_after_change (env : Env) (s : State) :
    (SelectedObjectChanged env s).1.selection = s.selection := by
  unfold SelectedObjectChanged
  cases s.selection <;> rfl

/-- With no row hidden by the filter, a `Select(obj)` of a present object that
changes the selection leaves `obj`'s row as the sole selection and `obj` as the
active object. -/
theorem Select_activates_when_unfiltered (env : Env) (s : State) (obj : Ptr)
    (hvis : visibleRows env s = List.range s.mObjectModel.mObjects.length)
    (hmem : obj ∈ s.mObjectModel.mObjects)
    (hchg : selectionDiffers s.selection [(s.mObjectModel.GetIndex obj).toNat] = true) :
    (Select env s obj).1 = true ∧
      (Select env s obj).2.1.selection = [(s.mObjectModel.GetIndex obj).toNat] ∧
      s.mObjectModel.GetObject (some (s.mObjectModel.GetIndex obj).toNat) = obj ∧
      GetActiveObject env (Select env s obj).2.1 = obj := by
  have hne : s.mObjectModel.GetIndex obj ≠ -1 := by
    intro hc
    exact (indexFrom_eq_neg_one_iff obj s.mObjectModel.mObjects 0).mp hc hmem
  obtain ⟨k, hk1, hk2⟩ := indexFrom_spec obj s.mObjectModel.mObjects 0 hne
  have hidx : (s.mObjectModel.GetIndex obj).toNat = k := by
    unfold ObjectListModel.GetIndex
    rw [hk1]
    simp
  have hklt : k < s.mObjectModel.mObjects.length := by
    rcases Nat.lt_or_ge k s.mObjectModel.mObjects.length with h | h
    · exact h
    · rw [List.get?_eq_none.mpr h] at hk2
      exact absurd hk2 (by simp)
  have hsel : selectRow env s k = [k] := by
    simp [selectRow, hvis, hklt]
  have hobj : s.mObjectModel.GetObject (some k) = obj := by
    unfold ObjectListModel.GetObject
    simp only [hk2]
    rfl
  have hmap : mapToSource env { s with selection := [k] } k = some k := by
    have : visibleRows env { s with selection := [k] } = visibleRows env s := rfl
    unfold mapToSource
    rw [this, hvis]
    simp [hklt]
  rw [hidx] at hchg ⊢
  have hS : Select env s obj =
      (true, (SelectedObjectChanged env { s with selection := [k] }).1,
        (SelectedObjectChanged env { s with selection := [k] }).2) := by
    unfold Select
    rw [if_pos hne]
    simp only [hidx, hsel, hchg, if_true]
  rw [hS]
  refine ⟨rfl, ?_, hobj, ?_⟩
  · exact selection_after_change env { s with selection := [k] }
  · show lock env (SelectedObjectChanged env { s with selection := [k] }).1 = obj
    rw [lock_after_change]
    simp only [hmap]
    exact hobj

/-- With no row hidden by the filter, `MoveUp` emits nothing when nothing is
selected or the selected row is underlying row 0, and otherwise one event for
the object of the selected underlying row, direction up; the state is kept. -/
theorem MoveUp_when_unfiltered (env : Env) (s : State)
    (hvis : visibleRows env s = List.range s.mObjectModel.mObjects.length) :
    (MoveUp env s).1 = s ∧
      (s.selection = [] → (MoveUp env s).2 = []) ∧
      (∀ (row : Nat) (rest : List Nat), s.selection = row :: rest →
        row < s.mObjectModel.mObjects.length →
        mapToSource env s row = some row ∧
        (MoveUp env s).2 =
          if row = 0 then []
          else [Event.objectMoved (s.mObjectModel.GetObject (some row)) true]) := by
  refine ⟨?_, ?_, ?_⟩
  · unfold MoveUp
    split
    · rfl
    · split <;> rfl
  · intro h
    simp [MoveUp, h]
  · intro row rest h hlt
    have hmap : mapToSource env s row = some row := by
      unfold mapToSource
      rw [hvis]
      simp [hlt]
    refine ⟨hmap, ?_⟩
    unfold MoveUp
    rw [h]
    simp only [hmap]
    by_cases h0 : row = 0 <;> simp [h0]

/-- With no row hidden by the filter, `MoveDown` emits nothing when nothing is
selected or the selected row is the last underlying row, and otherwise one
event for the object of the selected underlying row, direction down. -/
theorem MoveDown_when_unfiltered (env : Env) (s : State)
    (hvis : visibleRows env s = List.range s.mObjectModel.mObjects.length) :
    (MoveDown env s).1 = s ∧
      (s.selection = [] → (MoveDown env s).2 = []) ∧
      (∀ (row : Nat) (rest : List Nat), s.selection = row :: rest →
        row < s.mObjectModel.mObjects.length →
        mapToSource env s row = some row ∧
        (MoveDown env s).2 =
          if (row : Int) = s.mObjectModel.rowCount - 1 then []
          else [Event.objectMoved (s.mObjectModel.GetObject (some row)) false]) := by
  refine ⟨?_, ?_, ?_⟩
  · unfold MoveDown
    split
    · rfl
    · split <;> rfl
  · intro h
    simp [MoveDown, h]
  · intro row rest h hlt
    have hmap : mapToSource env s row = some row := by
      unfold mapToSource
      rw [hvis]
      simp [hlt]
    refine ⟨hmap, ?_⟩
    unfold MoveDown
    rw [h]
    simp only [hmap]
    by_cases h0 : (row : Int) = s.mObjectModel.rowCount - 1 <;> simp [h0]

end ObjectList
